import Mathlib

/-!
Verification development for the hierarchical domain-aware language catalog
(`language_catalog.py`) and its process-wide service (`language_service.py`).

The Python code is shallowly embedded: dictionaries become association lists
(`List (String × _)`), mutation becomes explicit state passing, and raised
exceptions become an explicit `PyErr` error type carried in `Except` (for
operations that mutate before they can fail, the partial state is returned
alongside the `Except` result).  File reads performed by the loaders are
modelled by their outcome: the already-decoded JSON value, or the read/decode
error, as an `Except PyErr Json` argument.
-/

namespace LangCatalog

/-- Python exception values, distinguished by exception class and message
(the message keeps the structure of the source message; `repr`-style quoting
of Python is elided). -/
inductive PyErr where
  | valueError (msg : String) : PyErr
  | keyError (msg : String) : PyErr
  | fileNotFound (msg : String) : PyErr
  | jsonDecodeError (msg : String) : PyErr
  | runtimeError (msg : String) : PyErr
deriving DecidableEq, Repr

/-- Decoded JSON values (`json.load` results). -/
inductive Json where
  | str (s : String) : Json
  | num (n : Int) : Json
  | bool (b : Bool) : Json
  | null : Json
  | arr (elems : List Json) : Json
  | obj (fields : List (String × Json)) : Json

/-- Decidable equality of `Except` results, for evaluating the embedding
on concrete inputs. -/
instance {ε α : Type} [DecidableEq ε] [DecidableEq α] :
    DecidableEq (Except ε α) := fun x y =>
  match x, y with
  | .ok a, .ok b =>
    if h : a = b then .isTrue (by rw [h])
    else .isFalse (by simp [h])
  | .error a, .error b =>
    if h : a = b then .isTrue (by rw [h])
    else .isFalse (by simp [h])
  | .ok _, .error _ => .isFalse (by simp)
  | .error _, .ok _ => .isFalse (by simp)

/-- Association-list lookup, modelling Python `dict.get`. -/
def alFind {α : Type} : List (String × α) → String → Option α
  | [], _ => none
  | (k, v) :: rest, key => if k = key then some v else alFind rest key

/-- Association-list update, modelling Python `dict` assignment `d[k] = v`
(replaces the value of an existing key in place, appends a new key at the
end, as insertion-ordered Python dicts do). -/
def alInsert {α : Type} : List (String × α) → String → α → List (String × α)
  | [], key, v => [(key, v)]
  | (k, w) :: rest, key, v =>
    if k = key then (key, v) :: rest else (k, w) :: alInsert rest key v

/-- ASCII character uppercasing, modelling Python `str.upper` on the ASCII
range (the language codes handled by the catalog). -/
def pyCharUpper (c : Char) : Char :=
  if 97 ≤ c.toNat ∧ c.toNat ≤ 122 then Char.ofNat (c.toNat - 32) else c

/-- String uppercasing, modelling Python `str.upper` (ASCII range). -/
def pyUpper (s : String) : String :=
  String.mk (s.data.map pyCharUpper)

/-- Python `str.strip()`: remove leading and trailing whitespace. -/
def pyStrip (s : String) : String :=
  String.mk (((s.data.dropWhile Char.isWhitespace).reverse.dropWhile
    Char.isWhitespace).reverse)

/-- Split a character list at every occurrence of `sep`, modelling Python
`str.split(sep)` for a single-character separator.  Never returns `[]`. -/
def splitCharList (sep : Char) : List Char → List (List Char)
  | [] => [[]]
  | c :: rest =>
    match splitCharList sep rest with
    | [] => [[]]
    | g :: gs => if c = sep then [] :: g :: gs else (c :: g) :: gs

/-- Python `domain.split(".")`. -/
def splitOnDot (s : String) : List String :=
  (splitCharList '.' s.data).map String.mk

/-- Python `sep.join(parts)`. -/
def joinWith (sep : String) : List String → String
  | [] => ""
  | [a] => a
  | a :: b :: rest => a ++ sep ++ joinWith sep (b :: rest)

/-- Python `s.startswith(p)` (on full strings). -/
def listIsInit : List Char → List Char → Bool
  | [], _ => true
  | _ :: _, [] => false
  | p :: ps, c :: cs => p = c && listIsInit ps cs

/-- Python `s.startswith(p)`. -/
def strStarts (s p : String) : Bool :=
  listIsInit p.data s.data

/-- Executable lexicographic strict comparison on character lists
(the order Python `sorted` uses on strings, by code point). -/
def listLtB : List Char → List Char → Bool
  | [], [] => false
  | [], _ :: _ => true
  | _ :: _, [] => false
  | a :: as, b :: bs =>
    if a < b then true else if b < a then false else listLtB as bs

/-- Executable `a ≤ b` on strings (`¬ b < a`, as for `String.le`). -/
def strLeB (a b : String) : Bool :=
  !(listLtB b.data a.data)

/-- The sorting relation used to model Python `sorted` on strings. -/
def pyLe (a b : String) : Prop := strLeB a b = true

instance : DecidableRel pyLe := fun a b => instDecidableEqBool (strLeB a b) true

/-- Python `sorted(set(xs))` for strings: deduplicated, lexicographically
sorted output. -/
def pySortedSet (xs : List String) : List String :=
  (xs.dedup).insertionSort pyLe

-- --------------------------- Domain utilities ---------------------------

def ROOT_DOMAIN : String := "GLOBAL"

/-- `_normalize_domain`: trim whitespace; `None`/empty (also all-whitespace)
input yields the root domain. -/
def _normalize_domain (domain : Option String) : String :=
  match domain with
  | none => ROOT_DOMAIN
  | some d =>
    if d = "" then ROOT_DOMAIN
    else
      let t := pyStrip d
      if t = "" then ROOT_DOMAIN else t

/-- The joined prefixes `[".".join(parts[:i]) for i in range(n, 0, -1)]`,
built by recursion on `n`. -/
def joinedChain (parts : List String) : Nat → List String
  | 0 => []
  | n + 1 => joinWith "." (parts.take (n + 1)) :: joinedChain parts n

/-- `_domain_chain`: the search chain from the most specific domain up to
`ROOT_DOMAIN`, with the root appended when the last prefix is not already
the root. -/
def _domain_chain (domain : String) : List String :=
  let d := _normalize_domain (some domain)
  if d = ROOT_DOMAIN then [ROOT_DOMAIN]
  else
    let parts := splitOnDot d
    let out := joinedChain parts parts.length
    if out.getLast? ≠ some ROOT_DOMAIN then out ++ [ROOT_DOMAIN] else out

-- ------------------------------- Catalog --------------------------------

/-- Per-label language map: `{ lang: text }`. -/
abbrev LangMap := List (String × String)

/-- Per-domain label map: `{ label: { lang: text } }`. -/
abbrev LabelMap := List (String × LangMap)

/-- The store: `{ domain: { label: { lang: text } } }`. -/
abbrev Store := List (String × LabelMap)

/-- The `LanguageCatalog` object state. -/
structure Catalog where
  data : Store
  default_lang : String
  allowed : Option (List String)
  context_domain : String
deriving DecidableEq, Repr

/-- `LanguageCatalog.__init__`. -/
def mkCatalog (default_lang : String) (allowed_langs : Option (List String)) :
    Catalog where
  data := []
  default_lang := if default_lang = "" then "EN" else pyUpper default_lang
  allowed :=
    match allowed_langs with
    | none => none
    | some l => if l = [] then none else some (l.map pyUpper)
  context_domain := ROOT_DOMAIN

/-- `LanguageCatalog._normalize_lang`: uppercase the code; reject empty
codes and, when an allow-list is configured, codes outside it. -/
def _normalize_lang (c : Catalog) (lang : String) : Except PyErr String :=
  if lang = "" then .error (.valueError "lang must be a non-empty string.")
  else
    let code := pyUpper lang
    match c.allowed with
    | some allowed =>
      if code ∈ allowed then .ok code
      else .error (.valueError ("lang " ++ code ++ " not in allowed set"))
    | none => .ok code

/-- `LanguageCatalog.set_context`. -/
def set_context (c : Catalog) (domain : Option String) : Catalog :=
  { c with context_domain := _normalize_domain domain }

/-- The effective domain argument `domain or self._context_domain`
(Python `or`: `None` and `""` fall back to the context). -/
def effDomainArg (c : Catalog) (domain : Option String) : String :=
  match domain with
  | none => c.context_domain
  | some d => if d = "" then c.context_domain else d

/-- `LanguageCatalog.set_text`: insert or update a text for
`(domain, label, lang)`.  The `text` argument is a JSON value so that the
source's `isinstance(text, str)` check is modelled at the right place. -/
def set_text (c : Catalog) (label lang : String) (text : Json)
    (overwrite : Bool) (domain : Option String) : Except PyErr Catalog :=
  if label = "" then .error (.valueError "label must be a non-empty string.")
  else
    match _normalize_lang c lang with
    | .error e => .error e
    | .ok code =>
      match text with
      | .str t =>
        let dom := _normalize_domain (some (effDomainArg c domain))
        let bucket_labels := (alFind c.data dom).getD []
        let bucket_langs := (alFind bucket_labels label).getD []
        if !overwrite && (alFind bucket_langs code).isSome then .ok c
        else
          .ok { c with
                data := alInsert c.data dom
                  (alInsert bucket_labels label
                    (alInsert bucket_langs code t)) }
      | _ => .error (.valueError "text must be a string.")

-- ------------------------------- Resolver -------------------------------

/-- The effective primary language:
`self._normalize_lang(lang) if lang else self._default_lang`
(Python truthiness: `None` and `""` select the default). -/
def effPrimary (c : Catalog) (lang : Option String) : Except PyErr String :=
  match lang with
  | some l => if l = "" then .ok c.default_lang else _normalize_lang c l
  | none => .ok c.default_lang

/-- The effective fallback code:
`self._normalize_lang(fallback_lang) if fallback_lang else None`. -/
def effFallback (c : Catalog) (fallback_lang : Option String) :
    Except PyErr (Option String) :=
  match fallback_lang with
  | some f =>
    if f = "" then .ok none
    else
      match _normalize_lang c f with
      | .error e => .error e
      | .ok code => .ok (some code)
  | none => .ok none

/-- The per-domain language-tier lookup inside the `get_text` loop:
try `primary`, then the explicit fallback, then the catalog default when it
is not among the already-tried codes. -/
def tierLookup (c : Catalog) (primary : String) (fb : Option String)
    (langs : LangMap) : Option String :=
  match alFind langs primary with
  | some t => some t
  | none =>
    match (match fb with | some f => alFind langs f | none => none) with
    | some t => some t
    | none =>
      if c.default_lang ≠ primary ∧ fb ≠ some c.default_lang then
        alFind langs c.default_lang
      else none

/-- The `for d in chain` loop of `get_text`: skip domains without entries
for the label, return the first language-tier hit. -/
def getTextLoop (c : Catalog) (label primary : String) (fb : Option String) :
    List String → Option String
  | [] => none
  | d :: rest =>
    match alFind c.data d with
    | none => getTextLoop c label primary fb rest
    | some labels =>
      if labels.isEmpty then getTextLoop c label primary fb rest
      else
        match alFind labels label with
        | none => getTextLoop c label primary fb rest
        | some langs =>
          if langs.isEmpty then getTextLoop c label primary fb rest
          else
            match tierLookup c primary fb langs with
            | some t => some t
            | none => getTextLoop c label primary fb rest

/-- The message of the final `KeyError` of `get_text` (it names the label
and the searched chain; Python `repr` quoting is elided). -/
def notFoundMsg (label : String) (chain : List String) : String :=
  "Text not found for label=" ++ label ++ " in domain chain " ++
    joinWith ", " chain

/-- `LanguageCatalog.get_text`: hierarchical domain-chain resolution with
per-domain language tiers. -/
def get_text (c : Catalog) (label : String) (lang : Option String)
    (fallback_lang : Option String) (dflt : Option String)
    (domain : Option String) : Except PyErr String :=
  if label = "" then
    match dflt with
    | some d => .ok d
    | none => .error (.keyError "Missing label")
  else
    let dom := _normalize_domain (some (effDomainArg c domain))
    let chain := _domain_chain dom
    match effPrimary c lang with
    | .error e => .error e
    | .ok primary =>
      match effFallback c fallback_lang with
      | .error e => .error e
      | .ok fb =>
        match getTextLoop c label primary fb chain with
        | some t => .ok t
        | none =>
          match dflt with
          | some d => .ok d
          | none => .error (.keyError (notFoundMsg label chain))

-- ------------------------------ Formatter -------------------------------

/-- Substitution scanner modelling Python `str.format(**kwargs)` on
templates whose replacement fields are plain keyword names (`{name}`),
with `{{`/`}}` escapes.  `inField` is true while scanning a field name,
whose characters accumulate (reversed) in `acc`.  `none` models a raised
`KeyError` (unknown field) or `ValueError` (malformed template). -/
def fmtScan (kw : List (String × String)) :
    Bool → List Char → List Char → Option (List Char)
  | inField, _, [] => if inField then none else some []
  | true, acc, ch :: rest =>
    if ch = '}' then
      match alFind kw (String.mk acc.reverse) with
      | some v => (fun t => v.data ++ t) <$> fmtScan kw false [] rest
      | none => none
    else fmtScan kw true (ch :: acc) rest
  | false, _, '{' :: '{' :: rest2 => (fun t => '{' :: t) <$> fmtScan kw false [] rest2
  | false, _, '{' :: rest => fmtScan kw true [] rest
  | false, _, '}' :: '}' :: rest2 => (fun t => '}' :: t) <$> fmtScan kw false [] rest2
  | false, _, '}' :: _ => none
  | false, _, ch :: rest => (fun t => ch :: t) <$> fmtScan kw false [] rest

/-- `template.format(**kwargs)`: `none` models a raised exception. -/
def pyFormat (template : String) (kw : List (String × String)) :
    Option String :=
  (fmtScan kw false [] template.data).map String.mk

/-- `LanguageCatalog.fmt`: resolve a template, substitute, and on any
substitution failure return the unsubstituted template. -/
def fmt (c : Catalog) (label : String) (lang : Option String)
    (fallback_lang : Option String) (dflt : Option String)
    (domain : Option String) (kw : List (String × String)) :
    Except PyErr String :=
  match get_text c label lang fallback_lang dflt domain with
  | .error e => .error e
  | .ok template =>
    match pyFormat template kw with
    | some s => .ok s
    | none => .ok template

-- --------------------- Spec-side resolution description -----------------

/-- Modelled from the spec (§4.3): the ordered language tiers tried within
one domain — `primaryLang`; then the explicitly supplied `fallbackLang`;
then, if not already tried, the catalog default language. -/
def specTiers (c : Catalog) (primary : String) (fb : Option String) :
    List String :=
  let base := primary :: fb.toList
  if c.default_lang ∈ base then base else base ++ [c.default_lang]

/-- The entries a domain holds for a label (empty when the domain or the
label is absent). -/
def entriesFor (c : Catalog) (d label : String) : LangMap :=
  (alFind ((alFind c.data d).getD []) label).getD []

/-- Modelled from the spec (§4.3): walk the chain most specific first; a
domain with no entries for the label is skipped; otherwise the ordered
language tiers are tried inside this domain and the first text found is
returned — only when *all* tiers miss does the search move to the parent. -/
def resolveSpec (c : Catalog) (label primary : String) (fb : Option String)
    (chain : List String) : Option String :=
  chain.findSome? fun d =>
    let es := entriesFor c d label
    if es.isEmpty then none
    else (specTiers c primary fb).findSome? fun l => alFind es l

-- ------------------------------- Loaders --------------------------------

/-- The inner `for lang, text in mapping.items()` loop of the legacy flat
loader's object shape: every record processed bumps the count. -/
def loadLangPairs (c : Catalog) (label : String) (ow : Bool)
    (count : Nat) : List (String × Json) → Catalog × Except PyErr Nat
  | [] => (c, .ok count)
  | (lang, text) :: rest =>
    match set_text c label lang text ow (some ROOT_DOMAIN) with
    | .error e => (c, .error e)
    | .ok c2 => loadLangPairs c2 label ow (count + 1) rest

/-- The object-of-objects branch of `load_from_file`. -/
def loadFlatObj (c : Catalog) (ow : Bool) (count : Nat) :
    List (String × Json) → Catalog × Except PyErr Nat
  | [] => (c, .ok count)
  | (label, mapping) :: rest =>
    match mapping with
    | .obj langMap =>
      match loadLangPairs c label ow count langMap with
      | (c2, .ok count2) => loadFlatObj c2 ow count2 rest
      | (c2, .error e) => (c2, .error e)
    | _ =>
      (c, .error (.valueError
        ("Invalid entry for label " ++ label ++ ": expected object of languages.")))

/-- The list-of-records branch of `load_from_file`. -/
def loadFlatList (c : Catalog) (ow : Bool) (count : Nat) :
    List Json → Catalog × Except PyErr Nat
  | [] => (c, .ok count)
  | rec :: rest =>
    match rec with
    | .obj fields =>
      match alFind fields "label", alFind fields "lang", alFind fields "text" with
      | some (.str label), some (.str lang), some (.str text) =>
        match set_text c label lang (.str text) ow (some ROOT_DOMAIN) with
        | .error e => (c, .error e)
        | .ok c2 => loadFlatList c2 ow (count + 1) rest
      | _, _, _ =>
        (c, .error (.valueError
          "Each record must have string fields: label, lang, text."))
    | _ =>
      (c, .error (.valueError
        "List form expects objects with keys: label, lang, text."))

/-- `LanguageCatalog.load_from_file` (legacy multi-language, GLOBAL domain).
The file-read step is modelled by its outcome `j`; exceptions leave the
already-performed insertions in place, so the post-state is returned next
to the result. -/
def load_from_file (c : Catalog) (j : Except PyErr Json) (ow : Bool) :
    Catalog × Except PyErr Nat :=
  match j with
  | .error e => (c, .error e)
  | .ok data =>
    match data with
    | .obj entries => loadFlatObj c ow 0 entries
    | .arr records => loadFlatList c ow 0 records
    | _ => (c, .error (.valueError "JSON must be an object or a list."))

/-- `LanguageCatalog.add_file`: merge an additional legacy file, default
`overwrite=False`. -/
def add_file (c : Catalog) (j : Except PyErr Json) (ow : Bool) :
    Catalog × Except PyErr Nat :=
  load_from_file c j ow

/-- The inner `for lang, text in lang_map.items()` loop of the domain-aware
loader: the string-ness of `lang` and `text` is checked before `set_text`. -/
def loadDomLangs (c : Catalog) (dom_norm label : String) (ow : Bool)
    (count : Nat) : List (String × Json) → Catalog × Except PyErr Nat
  | [] => (c, .ok count)
  | (lang, text) :: rest =>
    match text with
    | .str t =>
      match set_text c label lang (.str t) ow (some dom_norm) with
      | .error e => (c, .error e)
      | .ok c2 => loadDomLangs c2 dom_norm label ow (count + 1) rest
    | _ => (c, .error (.valueError "Languages must map to string texts."))

/-- The `for label, lang_map in labels.items()` loop of the domain-aware
loader. -/
def loadDomLabels (c : Catalog) (dom_norm : String) (ow : Bool)
    (count : Nat) : List (String × Json) → Catalog × Except PyErr Nat
  | [] => (c, .ok count)
  | (label, lang_map) :: rest =>
    match lang_map with
    | .obj langs =>
      match loadDomLangs c dom_norm label ow count langs with
      | (c2, .ok count2) => loadDomLabels c2 dom_norm ow count2 rest
      | (c2, .error e) => (c2, .error e)
    | _ =>
      (c, .error (.valueError "Each label must map to an object of languages."))

/-- The `for dom, labels in data.items()` loop of the domain-aware loader;
each domain key is normalized independently before insertion. -/
def loadDomList (c : Catalog) (ow : Bool) (count : Nat) :
    List (String × Json) → Catalog × Except PyErr Nat
  | [] => (c, .ok count)
  | (dom, labels) :: rest =>
    match labels with
    | .obj labelList =>
      match loadDomLabels c (_normalize_domain (some dom)) ow count labelList with
      | (c2, .ok count2) => loadDomList c2 ow count2 rest
      | (c2, .error e) => (c2, .error e)
    | _ =>
      (c, .error (.valueError "Each domain key must map to an object of labels."))

/-- `LanguageCatalog.load_domains_from_file` (domain-aware nested shape). -/
def load_domains_from_file (c : Catalog) (j : Except PyErr Json) (ow : Bool) :
    Catalog × Except PyErr Nat :=
  match j with
  | .error e => (c, .error e)
  | .ok data =>
    match data with
    | .obj doms => loadDomList c ow 0 doms
    | _ => (c, .error (.valueError "Domain-aware JSON must be a top-level object."))

/-- The object branch of the single-language loader. -/
def loadSingleObj (c : Catalog) (code tgt : String) (ow : Bool)
    (count : Nat) : List (String × Json) → Catalog × Except PyErr Nat
  | [] => (c, .ok count)
  | (label, text) :: rest =>
    match text with
    | .str t =>
      match set_text c label code (.str t) ow (some tgt) with
      | .error e => (c, .error e)
      | .ok c2 => loadSingleObj c2 code tgt ow (count + 1) rest
    | _ =>
      (c, .error (.valueError
        "Single-language JSON must map str labels to str texts."))

/-- The list branch of the single-language loader. -/
def loadSingleList (c : Catalog) (code tgt : String) (ow : Bool)
    (count : Nat) : List Json → Catalog × Except PyErr Nat
  | [] => (c, .ok count)
  | rec :: rest =>
    match rec with
    | .obj fields =>
      match alFind fields "label", alFind fields "text" with
      | some (.str label), some (.str text) =>
        match set_text c label code (.str text) ow (some tgt) with
        | .error e => (c, .error e)
        | .ok c2 => loadSingleList c2 code tgt ow (count + 1) rest
      | _, _ =>
        (c, .error (.valueError
          "Each record must have string fields: label, text."))
    | _ =>
      (c, .error (.valueError "List form expects objects with keys: label, text."))

/-- `LanguageCatalog.load_language_only_from_file`: the caller supplies the
language (normalized before the file is read) and the target domain. -/
def load_language_only_from_file (c : Catalog) (lang : String)
    (j : Except PyErr Json) (ow : Bool) (domain : Option String) :
    Catalog × Except PyErr Nat :=
  match _normalize_lang c lang with
  | .error e => (c, .error e)
  | .ok code =>
    let tgt := _normalize_domain domain
    match j with
    | .error e => (c, .error e)
    | .ok data =>
      match data with
      | .obj entries => loadSingleObj c code tgt ow 0 entries
      | .arr records => loadSingleList c code tgt ow 0 records
      | _ => (c, .error (.valueError "JSON must be an object or a list."))

/-- `LanguageCatalog.reload_from_file`: `self._data.clear()` first, then a
legacy load with `overwrite=True`. -/
def reload_from_file (c : Catalog) (j : Except PyErr Json) :
    Catalog × Except PyErr Nat :=
  load_from_file { c with data := [] } j true

-- ------------------------------- Service --------------------------------

/-- The module-level singleton state of `language_service.py`. -/
structure ServiceState where
  _lang_catalog : Option Catalog
deriving Repr

/-- `language_service.init_language`: build a fresh catalog off to the
side, load it, and assign the module-level reference only if loading (and
the optional `set_context`) succeeded; a raised load error propagates and
leaves the previous reference in place. -/
def init_language (st : ServiceState) (j : Except PyErr Json)
    (default_lang : String) (allowed_langs : Option (List String))
    (ow : Bool) (context : Option String) (domain_aware : Bool) :
    ServiceState × Except PyErr Unit :=
  let cat := mkCatalog default_lang allowed_langs
  let loaded :=
    if domain_aware then load_domains_from_file cat j ow
    else load_from_file cat j ow
  match loaded.2 with
  | .error e => (st, .error e)
  | .ok _ =>
    let cat2 :=
      match context with
      | some ctx => set_context loaded.1 (some ctx)
      | none => loaded.1
    ({ _lang_catalog := some cat2 }, .ok ())

/-- `language_service.get_language`: the singleton accessor. -/
def get_language (st : ServiceState) : Except PyErr Catalog :=
  match st._lang_catalog with
  | none =>
    .error (.runtimeError
      "Language service not initialized. Call init_language(...) during app bootstrap.")
  | some c => .ok c

-- ------------------------------- Listing --------------------------------

/-- `LanguageCatalog.list_labels`: sorted labels — union across the whole
store when no domain is given; direct labels of the exact domain when
`recursive = false`; labels of the domain and of every stored domain that
extends it past a `"."` boundary when `recursive = true`. -/
def list_labels (c : Catalog) (domain : Option String) (recursive : Bool) :
    List String :=
  match domain with
  | none => pySortedSet (c.data.flatMap fun p => p.2.map Prod.fst)
  | some d =>
    let dom := _normalize_domain (some d)
    if !recursive then pySortedSet (((alFind c.data dom).getD []).map Prod.fst)
    else
      let direct := ((alFind c.data dom).getD []).map Prod.fst
      let pfx := dom ++ "."
      let subs := (c.data.filter fun p => strStarts p.1 pfx).flatMap
        fun p => p.2.map Prod.fst
      pySortedSet (direct ++ subs)

-- --------------------------- Store invariant ----------------------------

/-- One language key is well-formed: uppercase (a fixpoint of `pyUpper`)
and, when an allow-list is configured, a member of it. -/
def langOkB (c : Catalog) (l : String) : Bool :=
  decide (pyUpper l = l) &&
    (match c.allowed with
     | some al => decide (l ∈ al)
     | none => true)

/-- The store invariant: every domain key is normalized (a fixpoint of
`_normalize_domain`) and every language key is well-formed. -/
def storeInvB (c : Catalog) : Bool :=
  c.data.all fun p =>
    decide (_normalize_domain (some p.1) = p.1) &&
      p.2.all fun q => q.2.all fun r => langOkB c r.1

-- ------------------------- Concrete test fixtures -----------------------

/-- The spec's fallback-precedence scenario: `DATA_NOT_FOUND` stored only
at `GLOBAL` in `EN` and at `GLOBAL.DATABASE.ORACLE` in `DE`;
catalog default language `EN`. -/
def exPrecedence : Catalog where
  data := [("GLOBAL", [("DATA_NOT_FOUND", [("EN", "global-en")])]),
           ("GLOBAL.DATABASE.ORACLE", [("DATA_NOT_FOUND", [("DE", "oracle-de")])])]
  default_lang := "EN"
  allowed := none
  context_domain := "GLOBAL"

/-- A one-entry catalog: `(GLOBAL, L, EN) ↦ "old"`. -/
def exOne : Catalog where
  data := [("GLOBAL", [("L", [("EN", "old")])])]
  default_lang := "EN"
  allowed := none
  context_domain := "GLOBAL"

/-- A fresh catalog with allow-list `{EN}`. -/
def exAllow : Catalog := mkCatalog "EN" (some ["EN"])

/-- A listing scenario: labels under `GLOBAL`, `GLOBAL.DATABASE`,
`GLOBAL.DATABASE.ORACLE` and the unrelated `GLOBALIZATION`. -/
def exListing : Catalog where
  data := [("GLOBALIZATION", [("ZED", [("EN", "t")])]),
           ("GLOBAL", [("A_GLOBAL", [("EN", "t")])]),
           ("GLOBAL.DATABASE", [("B_DB", [("EN", "t")])]),
           ("GLOBAL.DATABASE.ORACLE", [("C_ORA", [("EN", "t")])])]
  default_lang := "EN"
  allowed := none
  context_domain := "GLOBAL"

/-- The spec's formatting scenario: `GREETING ↦ "Hello {name}"`. -/
def exGreeting : Catalog where
  data := [("GLOBAL", [("GREETING", [("EN", "Hello {name}")])])]
  default_lang := "EN"
  allowed := none
  context_domain := "GLOBAL"

-- ========================== Supporting lemmas ===========================

/-- `listLtB` decides the standard (lexicographic) list order. -/
theorem listLtB_iff : ∀ {x y : List Char}, listLtB x y = true ↔ x < y := by
  intro x
  induction x with
  | nil =>
    intro y
    cases y with
    | nil =>
      constructor
      · intro h; exact absurd h (by simp [listLtB])
      · intro h; cases h
    | cons b bs =>
      constructor
      · intro _; exact List.Lex.nil
      · intro _; rfl
  | cons a as ih =>
    intro y
    cases y with
    | nil =>
      constructor
      · intro h; exact absurd h (by simp [listLtB])
      · intro h; cases h
    | cons b bs =>
      simp only [listLtB]
      by_cases hab : a < b
      · rw [if_pos hab]
        constructor
        · intro _; exact List.Lex.rel hab
        · intro _; rfl
      · by_cases hba : b < a
        · rw [if_neg hab, if_pos hba]
          constructor
          · intro h; exact absurd h (by simp)
          · intro h
            cases h with
            | cons h => exact absurd hba (lt_irrefl a)
            | rel h => exact absurd h hab
        · rw [if_neg hab, if_neg hba]
          have hele : a = b := le_antisymm (not_lt.mp hba) (not_lt.mp hab)
          subst hele
          rw [ih]
          constructor
          · intro h; exact List.Lex.cons h
          · intro h
            cases h with
            | cons h => exact h
            | rel h => exact absurd h hab

/-- `strLeB` decides the standard string order. -/
theorem strLeB_iff {a b : String} : strLeB a b = true ↔ a ≤ b := by
  have hlt : b < a ↔ b.toList < a.toList := String.lt_iff_toList_lt
  constructor
  · intro h hba
    have : listLtB b.data a.data = true := listLtB_iff.mpr (hlt.mp hba)
    simp [strLeB, this] at h
  · intro h
    simp only [strLeB, Bool.not_eq_true']
    by_contra hne
    rw [Bool.not_eq_false] at hne
    exact h (hlt.mpr (listLtB_iff.mp hne))

/-- The sorting relation is total. -/
theorem pyLe_total : IsTotal String pyLe :=
  ⟨fun a b => by
    rcases le_total a b with h | h
    · exact Or.inl (strLeB_iff.mpr h)
    · exact Or.inr (strLeB_iff.mpr h)⟩

/-- The sorting relation is transitive. -/
theorem pyLe_trans : IsTrans String pyLe :=
  ⟨fun _ _ _ hab hbc =>
    strLeB_iff.mpr (le_trans (strLeB_iff.mp hab) (strLeB_iff.mp hbc))⟩

/-- Membership in a Python `sorted(set(·))` result. -/
theorem mem_pySortedSet {a : String} {xs : List String} :
    a ∈ pySortedSet xs ↔ a ∈ xs := by
  unfold pySortedSet
  rw [List.mem_insertionSort]
  exact List.mem_dedup

/-- A Python `sorted(set(·))` result is sorted for the standard order. -/
theorem pySortedSet_sorted (xs : List String) :
    (pySortedSet xs).Sorted (· ≤ ·) := by
  have h := @List.sorted_insertionSort String pyLe _ pyLe_total pyLe_trans xs.dedup
  exact h.imp fun hab => strLeB_iff.mp hab

/-- A Python `sorted(set(·))` result has no duplicates. -/
theorem pySortedSet_nodup (xs : List String) : (pySortedSet xs).Nodup :=
  (List.perm_insertionSort pyLe xs.dedup).nodup_iff.mpr (List.nodup_dedup xs)

/-- `Char.ofNat` on a scalar value below the surrogate range. -/
theorem char_toNat_ofNat_valid {n : Nat} (h : n < 55296) :
    (Char.ofNat n).toNat = n := by
  rw [Char.ofNat, dif_pos (Or.inl h)]
  rfl

/-- ASCII uppercasing is idempotent. -/
theorem pyCharUpper_idem (c : Char) :
    pyCharUpper (pyCharUpper c) = pyCharUpper c := by
  unfold pyCharUpper
  by_cases h : 97 ≤ c.toNat ∧ c.toNat ≤ 122
  · rw [if_pos h]
    have h1 : (Char.ofNat (c.toNat - 32)).toNat = c.toNat - 32 :=
      char_toNat_ofNat_valid (by omega)
    rw [if_neg (by omega)]
  · rw [if_neg h, if_neg h]

/-- String uppercasing is idempotent. -/
theorem pyUpper_idem (s : String) : pyUpper (pyUpper s) = pyUpper s := by
  unfold pyUpper
  simp only [List.map_map]
  exact congrArg String.mk (List.map_congr_left fun a _ => pyCharUpper_idem a)

/-- Stripping is idempotent. -/
theorem pyStrip_idem (s : String) : pyStrip (pyStrip s) = pyStrip s := by
  have hdata : ∀ t : String,
      (pyStrip t).data =
        List.rdropWhile Char.isWhitespace
          (t.data.dropWhile Char.isWhitespace) := fun _ => rfl
  apply String.ext
  rw [hdata, hdata]
  set m := s.data.dropWhile Char.isWhitespace with hm
  set x := List.rdropWhile Char.isWhitespace m with hx
  have hstep1 : x.dropWhile Char.isWhitespace = x := by
    cases hxc : x with
    | nil => rfl
    | cons a t =>
      have hpfx : x <+: m := List.rdropWhile_prefix Char.isWhitespace m
      obtain ⟨rest, hrest⟩ := hpfx
      have hma : m = a :: (t ++ rest) := by rw [← hrest, hxc]; rfl
      have hna : Char.isWhitespace a = false := by
        have := List.head?_dropWhile_not Char.isWhitespace s.data
        rw [← hm, hma] at this
        simpa using this
      exact List.dropWhile_cons_of_neg (by simp [hna])
  rw [hstep1, hx]
  exact List.rdropWhile_idempotent _ _

/-- Normalizing a domain is idempotent. -/
theorem normalize_domain_idem (d : Option String) :
    _normalize_domain (some (_normalize_domain d)) = _normalize_domain d := by
  cases d with
  | none => decide
  | some s =>
    by_cases hs : s = ""
    · subst hs; decide
    · by_cases ht : pyStrip s = ""
      · have h1 : _normalize_domain (some s) = ROOT_DOMAIN := by
          simp [_normalize_domain, hs, ht]
        rw [h1]; decide
      · have h2 : _normalize_domain (some s) = pyStrip s := by
          simp [_normalize_domain, hs, ht]
        rw [h2]
        simp [_normalize_domain, ht, pyStrip_idem s]

/-- What a successful language normalization guarantees: the code is
uppercase and inside any configured allow-list. -/
theorem normalize_lang_ok {c : Catalog} {lang code : String}
    (h : _normalize_lang c lang = .ok code) :
    pyUpper code = code ∧ ∀ al, c.allowed = some al → code ∈ al := by
  by_cases he : lang = ""
  · rw [_normalize_lang, if_pos he] at h
    cases h
  · cases hal : c.allowed with
    | none =>
      simp only [_normalize_lang, if_neg he, hal, Except.ok.injEq] at h
      subst h
      refine ⟨pyUpper_idem lang, fun al hc => ?_⟩
      cases hc
    | some al =>
      simp only [_normalize_lang, if_neg he, hal] at h
      by_cases hm : pyUpper lang ∈ al
      · rw [if_pos hm] at h
        simp only [Except.ok.injEq] at h
        subst h
        refine ⟨pyUpper_idem lang, fun al2 hc => ?_⟩
        cases hc
        exact hm
      · rw [if_neg hm] at h
        cases h

/-- A found key-value pair is a member of the association list. -/
theorem alFind_some_mem {α : Type} {l : List (String × α)} {k : String}
    {v : α} (h : alFind l k = some v) : (k, v) ∈ l := by
  induction l with
  | nil => cases h
  | cons p rest ih =>
    obtain ⟨pk, pv⟩ := p
    unfold alFind at h
    by_cases hk : pk = k
    · rw [if_pos hk] at h
      simp only [Option.some.injEq] at h
      subst hk
      subst h
      exact List.mem_cons_self _ _
    · rw [if_neg hk] at h
      exact List.mem_cons_of_mem _ (ih h)

/-- `alInsert` preserves a pointwise boolean property when the inserted
pair satisfies it. -/
theorem alInsert_all {α : Type} {f : String × α → Bool}
    {l : List (String × α)} {k : String} {v : α}
    (hl : l.all f = true) (hv : f (k, v) = true) :
    (alInsert l k v).all f = true := by
  induction l with
  | nil => simpa [alInsert] using hv
  | cons p rest ih =>
    unfold alInsert
    rw [List.all_cons, Bool.and_eq_true] at hl
    by_cases hk : p.1 = k
    · rw [if_pos hk]
      simp [hv, hl.2]
    · rw [if_neg hk]
      simp [hl.1, ih hl.2]

/-- `splitCharList` never yields the empty list of groups. -/
theorem splitCharList_ne_nil {sep : Char} :
    ∀ {l : List Char}, splitCharList sep l ≠ [] := by
  intro l
  cases l with
  | nil => simp [splitCharList]
  | cons c rest =>
    unfold splitCharList
    cases hs : splitCharList sep rest with
    | nil => simp
    | cons g gs =>
      by_cases hc : c = sep
      · simp [hc]
      · simp [hc]

/-- A split producing a single group means the separator never occurred. -/
theorem splitCharList_singleton {sep : Char} :
    ∀ {l g : List Char}, splitCharList sep l = [g] → l = g := by
  intro l
  induction l with
  | nil =>
    intro g h
    unfold splitCharList at h
    simp only [List.cons.injEq, and_true] at h
    exact h
  | cons c rest ih =>
    intro g h
    unfold splitCharList at h
    cases hs : splitCharList sep rest with
    | nil => exact absurd hs splitCharList_ne_nil
    | cons g2 gs =>
      rw [hs] at h
      by_cases hc : c = sep
      · simp [hc] at h
      · simp only [hc, if_false, ite_false, List.cons.injEq] at h
        obtain ⟨hg, hgs⟩ := h
        subst hgs
        rw [← hg, ih hs]

/-- A one-group dot-split means the string had no dots. -/
theorem splitOnDot_singleton {s g : String} (h : splitOnDot s = [g]) :
    s = g := by
  unfold splitOnDot at h
  cases hs : splitCharList '.' s.data with
  | nil => exact absurd hs splitCharList_ne_nil
  | cons x xs =>
    rw [hs] at h
    simp only [List.map_cons, List.cons.injEq, List.map_eq_nil_iff] at h
    obtain ⟨hx, hxs⟩ := h
    subst hxs
    have : s.data = x := splitCharList_singleton hs
    apply String.ext
    rw [this, ← hx]

/-- The joined-prefix chain has as many entries as requested. -/
theorem joinedChain_length (parts : List String) :
    ∀ n, (joinedChain parts n).length = n := by
  intro n
  induction n with
  | zero => rfl
  | succ m ih => simp [joinedChain, ih]

/-- The last entry of the joined-prefix chain is the one-segment join. -/
theorem joinedChain_getLast (parts : List String) :
    ∀ n, (joinedChain parts (n + 1)).getLast? =
      some (joinWith "." (parts.take 1)) := by
  intro n
  induction n with
  | zero => rfl
  | succ m ih =>
    show (joinWith "." (parts.take (m + 2)) ::
      joinedChain parts (m + 1)).getLast? = _
    rw [show joinedChain parts (m + 1) =
      joinWith "." (parts.take (m + 1)) :: joinedChain parts m from rfl]
    rw [List.getLast?_cons_cons]
    exact ih

/-- Joining two or more segments of a root-headed list never yields the
bare root name. -/
theorem joinWith_take_ne_root {tl : List String} (htl : tl ≠ []) {k : Nat}
    (hk : 2 ≤ k) :
    joinWith "." ((ROOT_DOMAIN :: tl).take k) ≠ ROOT_DOMAIN := by
  obtain ⟨k2, rfl⟩ : ∃ k2, k = k2 + 2 := ⟨k - 2, by omega⟩
  rw [List.take_succ_cons]
  cases htk : tl.take (k2 + 1) with
  | nil =>
    rcases List.take_eq_nil_iff.mp htk with h | h <;>
      first
      | omega
      | exact absurd h htl
  | cons y ys =>
    intro heq
    have hdata := congrArg String.data heq
    rw [show joinWith "." (ROOT_DOMAIN :: y :: ys) =
      ROOT_DOMAIN ++ "." ++ joinWith "." (y :: ys) from rfl] at hdata
    simp only [String.data_append] at hdata
    have hlen := congrArg List.length hdata
    simp only [List.length_append, List.length_cons, List.length_nil] at hlen
    omega

/-- The root name occurs exactly once in the joined-prefix chain of a
root-headed segment list with at least two segments. -/
theorem joinedChain_count_root {tl : List String} (htl : tl ≠ []) :
    ∀ m, 1 ≤ m →
      (joinedChain (ROOT_DOMAIN :: tl) m).count ROOT_DOMAIN = 1 := by
  intro m
  induction m with
  | zero => omega
  | succ n ih =>
    intro _
    by_cases hn : n = 0
    · subst hn
      rw [show joinedChain (ROOT_DOMAIN :: tl) 1 =
        [joinWith "." ((ROOT_DOMAIN :: tl).take 1)] from rfl]
      rw [show (ROOT_DOMAIN :: tl).take 1 = [ROOT_DOMAIN] from rfl]
      rfl
    · have hn1 : 1 ≤ n := by omega
      rw [show joinedChain (ROOT_DOMAIN :: tl) (n + 1) =
        joinWith "." ((ROOT_DOMAIN :: tl).take (n + 1)) ::
          joinedChain (ROOT_DOMAIN :: tl) n from rfl]
      rw [List.count_cons]
      have hne : joinWith "." ((ROOT_DOMAIN :: tl).take (n + 1)) ≠
          ROOT_DOMAIN := joinWith_take_ne_root htl (by omega)
      simp only [beq_iff_eq, if_neg hne, ih hn1]

-- ============================== Claim C4 ================================

/-- Claim C4: for every well-formed domain string `d` (well-formed: its
normalized form is rooted at `GLOBAL`, i.e. the first dot-separated
segment is the root name), the chain computed by `_domain_chain d` ends
with `GLOBAL`, contains the root exactly once (even when the root name
recurs as a later path segment), and has exactly one entry per
dot-separated segment of the (normalized) domain — length 1 when `d` is
the root itself. -/
theorem domain_chain_wellformed (d : String)
    (hw : (splitOnDot (_normalize_domain (some d))).head? = some ROOT_DOMAIN) :
    (_domain_chain d).getLast? = some ROOT_DOMAIN ∧
    (_domain_chain d).count ROOT_DOMAIN = 1 ∧
    (_domain_chain d).length =
      (splitOnDot (_normalize_domain (some d))).length := by
  by_cases hroot : _normalize_domain (some d) = ROOT_DOMAIN
  · have hchain : _domain_chain d = [ROOT_DOMAIN] := by
      unfold _domain_chain
      rw [if_pos hroot]
    rw [hchain, hroot]
    refine ⟨rfl, by decide, by decide⟩
  · cases hparts : splitOnDot (_normalize_domain (some d)) with
    | nil => rw [hparts] at hw; cases hw
    | cons p0 tl =>
      have hp0 : p0 = ROOT_DOMAIN := by
        rw [hparts] at hw
        simpa using hw
      subst hp0
      have htl : tl ≠ [] := by
        intro h0
        subst h0
        exact hroot (splitOnDot_singleton hparts)
      have hlast :
          (joinedChain (ROOT_DOMAIN :: tl) (ROOT_DOMAIN :: tl).length).getLast?
            = some ROOT_DOMAIN := by
        rw [show (ROOT_DOMAIN :: tl).length = tl.length + 1 from rfl]
        rw [joinedChain_getLast]
        rfl
      have hchain : _domain_chain d =
          joinedChain (ROOT_DOMAIN :: tl) (ROOT_DOMAIN :: tl).length := by
        unfold _domain_chain
        rw [if_neg hroot, hparts]
        simp only [hlast, ne_eq, not_true_eq_false, ite_false, if_neg]
      rw [hchain]
      refine ⟨hlast, ?_, ?_⟩
      · rw [show (ROOT_DOMAIN :: tl).length = tl.length + 1 from rfl]
        exact joinedChain_count_root htl (tl.length + 1) (by omega)
      · exact joinedChain_length _ _

/-- Witness for C4 at the concrete domain `GLOBAL.DATABASE.ORACLE`. -/
theorem domain_chain_wellformed_witness :
    (_domain_chain "GLOBAL.DATABASE.ORACLE").getLast? = some ROOT_DOMAIN ∧
    (_domain_chain "GLOBAL.DATABASE.ORACLE").count ROOT_DOMAIN = 1 ∧
    (_domain_chain "GLOBAL.DATABASE.ORACLE").length =
      (splitOnDot (_normalize_domain (some "GLOBAL.DATABASE.ORACLE"))).length :=
  domain_chain_wellformed "GLOBAL.DATABASE.ORACLE" (by decide)

-- ====================== Resolution-order equivalence ====================

/-- Inside one domain the source's tier logic coincides with trying the
spec's ordered language tiers in sequence. -/
theorem tierLookup_eq (c : Catalog) (primary : String) (fb : Option String)
    (langs : LangMap) :
    tierLookup c primary fb langs =
      (specTiers c primary fb).findSome? fun l => alFind langs l := by
  unfold tierLookup specTiers
  cases fb with
  | none =>
    cases h1 : alFind langs primary with
    | some t =>
      by_cases hd : c.default_lang = primary <;>
        simp [List.findSome?_cons, h1, hd]
    | none =>
      by_cases hd : c.default_lang = primary
      · simp [List.findSome?_cons, h1, hd]
      · cases h3 : alFind langs c.default_lang <;>
          simp [List.findSome?_cons, h1, hd, h3]
  | some f =>
    cases h1 : alFind langs primary with
    | some t =>
      by_cases hdp : c.default_lang = primary
      · simp [List.findSome?_cons, h1, hdp]
      · by_cases hdf : c.default_lang = f
        · simp [List.findSome?_cons, h1, hdp, hdf]
        · simp [List.findSome?_cons, h1, hdp, hdf]
    | none =>
      cases h2 : alFind langs f with
      | some t =>
        by_cases hdp : c.default_lang = primary
        · simp [List.findSome?_cons, h1, h2, hdp]
        · by_cases hdf : c.default_lang = f
          · simp [List.findSome?_cons, h1, h2, hdp, hdf]
          · simp [List.findSome?_cons, h1, h2, hdp, hdf, Ne.symm hdf]
      | none =>
        by_cases hdp : c.default_lang = primary
        · simp [List.findSome?_cons, h1, h2, hdp]
        · by_cases hdf : c.default_lang = f
          · simp [List.findSome?_cons, h1, h2, hdp, hdf]
          · cases h3 : alFind langs c.default_lang <;>
              simp [List.findSome?_cons, h1, h2, hdp, hdf, Ne.symm hdf, h3]

/-- Unfolding step of the spec-side resolution. -/
theorem resolveSpec_cons (c : Catalog) (label primary : String)
    (fb : Option String) (d : String) (rest : List String) :
    resolveSpec c label primary fb (d :: rest) =
      (if (entriesFor c d label).isEmpty then none
       else (specTiers c primary fb).findSome? fun l =>
         alFind (entriesFor c d label) l).orElse
        (fun _ => resolveSpec c label primary fb rest) := by
  unfold resolveSpec
  rw [List.findSome?_cons]
  cases h : (if (entriesFor c d label).isEmpty then none
             else (specTiers c primary fb).findSome? fun l =>
               alFind (entriesFor c d label) l) with
  | some t => simp [h, Option.orElse]
  | none => simp [h, Option.orElse]

/-- The `get_text` domain loop equals the spec-side description: the first
language-tier hit of the most specific domain that has entries for the
label. -/
theorem getTextLoop_eq_resolveSpec (c : Catalog) (label primary : String)
    (fb : Option String) :
    ∀ chain, getTextLoop c label primary fb chain =
      resolveSpec c label primary fb chain := by
  intro chain
  induction chain with
  | nil => rfl
  | cons d rest ih =>
    rw [resolveSpec_cons]
    cases hd : alFind c.data d with
    | none =>
      have hes : entriesFor c d label = [] := by simp [entriesFor, hd, alFind]
      simp [getTextLoop, hd, hes, ih, Option.orElse]
    | some labels =>
      by_cases hle : labels.isEmpty
      · have hlnil : labels = [] := by simpa using hle
        have hes : entriesFor c d label = [] := by
          simp [entriesFor, hd, hlnil, alFind]
        simp [getTextLoop, hd, hle, hes, ih, Option.orElse]
      · cases h2 : alFind labels label with
        | none =>
          have hes : entriesFor c d label = [] := by simp [entriesFor, hd, h2]
          simp [getTextLoop, hd, hle, h2, hes, ih, Option.orElse]
        | some langs =>
          have hes : entriesFor c d label = langs := by
            simp [entriesFor, hd, h2]
          by_cases hge : langs.isEmpty
          · have hgnil : langs = [] := by simpa using hge
            simp [getTextLoop, hd, hle, h2, hge, hes, hgnil, ih, Option.orElse]
          · rw [show getTextLoop c label primary fb (d :: rest) =
              (match tierLookup c primary fb langs with
               | some t => some t
               | none => getTextLoop c label primary fb rest) from by
              simp [getTextLoop, hd, hle, h2, hge]]
            rw [hes, if_neg (by simpa using hge), ← tierLookup_eq]
            cases htl : tierLookup c primary fb langs with
            | none => simp [Option.orElse, ih]
            | some t => simp [Option.orElse]

-- ============================== Claim C1 ================================

/-- Claim C1: `get_text` exhausts all language tiers of a domain before
moving to its parent.  With validated primary and fallback codes, the
result equals the spec-side description `resolveSpec`: the first hit of
the ordered language tiers (`primary`, explicit fallback, catalog default
if untried) inside the most specific chain domain holding entries for the
label — so a text of a less specific domain is never returned while a more
specific domain holds the label in a tried language (splitting the chain
anywhere, an earlier hit always wins).  In particular, with
`DATA_NOT_FOUND` stored only at `GLOBAL` in `EN` and at
`GLOBAL.DATABASE.ORACLE` in `DE`, resolving with
`domain=GLOBAL.DATABASE.ORACLE, lang=DE` yields the Oracle-domain `DE`
text and resolving with `lang=EN` yields the `GLOBAL` `EN` text. -/
theorem get_text_domain_major (c : Catalog) (label : String)
    (lang fallback_lang dflt domain : Option String) (primary : String)
    (fb : Option String)
    (hl : label ≠ "")
    (hp : effPrimary c lang = .ok primary)
    (hf : effFallback c fallback_lang = .ok fb) :
    (get_text c label lang fallback_lang dflt domain =
      match resolveSpec c label primary fb
        (_domain_chain (_normalize_domain (some (effDomainArg c domain)))) with
      | some t => .ok t
      | none =>
        match dflt with
        | some dv => .ok dv
        | none => .error (.keyError (notFoundMsg label
            (_domain_chain (_normalize_domain (some (effDomainArg c domain))))))) ∧
    (∀ pre post, resolveSpec c label primary fb (pre ++ post) =
      (resolveSpec c label primary fb pre).or
        (resolveSpec c label primary fb post)) ∧
    get_text exPrecedence "DATA_NOT_FOUND" (some "DE") none none
      (some "GLOBAL.DATABASE.ORACLE") = .ok "oracle-de" ∧
    get_text exPrecedence "DATA_NOT_FOUND" (some "EN") none none
      (some "GLOBAL.DATABASE.ORACLE") = .ok "global-en" := by
  refine ⟨?_, ?_, by decide, by decide⟩
  · simp only [get_text, if_neg hl, hp, hf]
    rw [getTextLoop_eq_resolveSpec]
  · intro pre post
    unfold resolveSpec
    exact List.findSome?_append

/-- Witness for C1: the theorem applied to the concrete precedence
catalog, discharging its hypotheses there. -/
theorem get_text_domain_major_witness :
    get_text exPrecedence "DATA_NOT_FOUND" (some "DE") none none
      (some "GLOBAL.DATABASE.ORACLE") = .ok "oracle-de" ∧
    get_text exPrecedence "DATA_NOT_FOUND" (some "EN") none none
      (some "GLOBAL.DATABASE.ORACLE") = .ok "global-en" :=
  ⟨(get_text_domain_major exPrecedence "DATA_NOT_FOUND" (some "DE") none none
      (some "GLOBAL.DATABASE.ORACLE") "DE" none (by decide) (by decide)
      (by decide)).2.2.1,
   (get_text_domain_major exPrecedence "DATA_NOT_FOUND" (some "EN") none none
      (some "GLOBAL.DATABASE.ORACLE") "EN" none (by decide) (by decide)
      (by decide)).2.2.2⟩

-- ============================== Claim C3 ================================

/-- Claim C3 counterexample: "it never raises when a default is supplied"
is false — with allow-list `{EN}` configured, resolving label `L` with
`lang="XX"` and `default="x"` raises `ValueError` from language
validation instead of returning the default. -/
theorem get_text_raises_with_default_counterexample :
    get_text exAllow "L" (some "XX") none (some "x") none =
      .error (.valueError "lang XX not in allowed set") := by decide

/-- Claim C3 (amended): with an empty label, `get_text` returns the
supplied default immediately and fails (`KeyError "Missing label"`, the
source's empty-label failure) when no default is supplied; with a
non-empty label and an exhausted chain it returns the supplied default,
and with no default it fails with the not-found error naming the label
and the searched chain; and — provided every explicitly supplied language
code passes validation — it never fails when a default is supplied. -/
theorem get_text_default_and_errors :
    (∀ (c : Catalog) (lang fb dom : Option String) (dv : String),
      get_text c "" lang fb (some dv) dom = .ok dv) ∧
    (∀ (c : Catalog) (lang fb dom : Option String),
      get_text c "" lang fb none dom = .error (.keyError "Missing label")) ∧
    (∀ (c : Catalog) (label : String) (lang fb dom : Option String)
        (primary : String) (fbc : Option String) (dv : String),
      label ≠ "" → effPrimary c lang = .ok primary →
      effFallback c fb = .ok fbc →
      getTextLoop c label primary fbc
        (_domain_chain (_normalize_domain (some (effDomainArg c dom)))) = none →
      get_text c label lang fb (some dv) dom = .ok dv) ∧
    (∀ (c : Catalog) (label : String) (lang fb dom : Option String)
        (primary : String) (fbc : Option String),
      label ≠ "" → effPrimary c lang = .ok primary →
      effFallback c fb = .ok fbc →
      getTextLoop c label primary fbc
        (_domain_chain (_normalize_domain (some (effDomainArg c dom)))) = none →
      get_text c label lang fb none dom = .error (.keyError (notFoundMsg label
        (_domain_chain (_normalize_domain (some (effDomainArg c dom))))))) ∧
    (∀ (c : Catalog) (label : String) (lang fb dom : Option String)
        (primary : String) (fbc : Option String) (dv : String),
      effPrimary c lang = .ok primary → effFallback c fb = .ok fbc →
      ∃ t, get_text c label lang fb (some dv) dom = .ok t) := by
  refine ⟨?_, ?_, ?_, ?_, ?_⟩
  · intro c lang fb dom dv
    simp [get_text]
  · intro c lang fb dom
    simp [get_text]
  · intro c label lang fb dom primary fbc dv hl hp hf hloop
    simp only [get_text, if_neg hl, hp, hf, hloop]
  · intro c label lang fb dom primary fbc hl hp hf hloop
    simp only [get_text, if_neg hl, hp, hf, hloop]
  · intro c label lang fb dom primary fbc dv hp hf
    by_cases hl : label = ""
    · exact ⟨dv, by simp [get_text, hl]⟩
    · cases hloop : getTextLoop c label primary fbc
          (_domain_chain (_normalize_domain (some (effDomainArg c dom)))) with
      | some t => exact ⟨t, by simp only [get_text, if_neg hl, hp, hf, hloop]⟩
      | none => exact ⟨dv, by simp only [get_text, if_neg hl, hp, hf, hloop]⟩

/-- Witness for the amended C3 at a concrete unknown label. -/
theorem get_text_default_and_errors_witness :
    get_text exOne "NO_SUCH_LABEL" none none none none =
      .error (.keyError (notFoundMsg "NO_SUCH_LABEL"
        (_domain_chain (_normalize_domain (some (effDomainArg exOne none)))))) ∧
    get_text exOne "NO_SUCH_LABEL" none none (some "x") none = .ok "x" :=
  ⟨get_text_default_and_errors.2.2.2.1 exOne "NO_SUCH_LABEL" none none none
      "EN" none (by decide) (by decide) (by decide) (by decide),
   get_text_default_and_errors.2.2.1 exOne "NO_SUCH_LABEL" none none none
      "EN" none "x" (by decide) (by decide) (by decide) (by decide)⟩

-- ============================== Claim C2 ================================

/-- Claim C2 (code bug): `reload_from_file` clears the store *before*
loading, so when the load step fails the store is left empty — not equal
to its pre-reload contents as the spec's atomicity requirement demands. -/
theorem reload_failure_clears_store :
    reload_from_file exOne
        (.error (.fileNotFound "File not found: messages.json")) =
      ({ exOne with data := [] },
       .error (.fileNotFound "File not found: messages.json")) ∧
    ({ exOne with data := [] } : Catalog) ≠ exOne ∧
    (reload_from_file exOne
        (.ok (.obj [("A", .obj [("EN", .str "x")]), ("B", .num 3)]))).1.data =
      [("GLOBAL", [("A", [("EN", "x")])])] := by
  refine ⟨by decide, by decide, by decide⟩

-- ============================== Claim C5 ================================

/-- Claim C5 (code bug): with `overwrite=False`, the legacy loader counts
an entry whose exact `(domain, label, language)` triple already existed
and was skipped: the store comes back unchanged (nothing inserted or
updated) yet the returned count is 1, contradicting the documented
"number of inserted/updated entries". -/
theorem load_count_includes_skipped :
    load_from_file exOne (.ok (.obj [("L", .obj [("EN", .str "new")])]))
        false = (exOne, .ok 1) ∧
    load_domains_from_file exOne
        (.ok (.obj [("GLOBAL", .obj [("L", .obj [("EN", .str "new")])])]))
        false = (exOne, .ok 1) ∧
    load_language_only_from_file exOne "EN"
        (.ok (.obj [("L", .str "new")])) false none = (exOne, .ok 1) := by
  refine ⟨by decide, by decide, by decide⟩

-- ============================== Claim C9 ================================

/-- Claim C9: `set_text` with `overwrite=false` on a triple that already
exists is a silent no-op — no error, the whole store (and catalog) is
returned unchanged — and repeating the call is idempotent. -/
theorem set_text_skip_noop (c : Catalog) (label lang s : String)
    (dom : Option String) (code : String)
    (hl : label ≠ "")
    (hn : _normalize_lang c lang = .ok code)
    (hex : (alFind ((alFind ((alFind c.data
        (_normalize_domain (some (effDomainArg c dom)))).getD []) label).getD
      []) code).isSome = true) :
    set_text c label lang (.str s) false dom = .ok c ∧
    (set_text c label lang (.str s) false dom).bind
      (fun c2 => set_text c2 label lang (.str s) false dom) = .ok c := by
  have h1 : set_text c label lang (.str s) false dom = .ok c := by
    simp only [set_text, if_neg hl, hn]
    simp [hex]
  exact ⟨h1, by simp [h1, Except.bind]⟩

/-- Witness for C9: re-inserting `(GLOBAL, L, en)` with `overwrite=false`
leaves the one-entry catalog untouched, twice over. -/
theorem set_text_skip_noop_witness :
    set_text exOne "L" "en" (.str "new") false none = .ok exOne ∧
    (set_text exOne "L" "en" (.str "new") false none).bind
      (fun c2 => set_text c2 "L" "en" (.str "new") false none) = .ok exOne :=
  set_text_skip_noop exOne "L" "en" "new" none "EN" (by decide) (by decide)
    (by decide)

-- ============================== Claim C6 ================================

/-- Claim C6: `fmt` never fails on substitution failure — whenever the
label resolves to a template, a failing substitution (missing key or
malformed template) returns the unsubstituted template, and a successful
substitution returns the substituted text; concretely, `"Hello {name}"`
with `{name: Ann}` gives `"Hello Ann"` and with an empty map gives the
literal `"Hello {name}"`. -/
theorem fmt_lenient (c : Catalog) (label : String)
    (lang fb dflt dom : Option String) (kw : List (String × String))
    (template : String)
    (hres : get_text c label lang fb dflt dom = .ok template) :
    (pyFormat template kw = none →
      fmt c label lang fb dflt dom kw = .ok template) ∧
    (∀ s, pyFormat template kw = some s →
      fmt c label lang fb dflt dom kw = .ok s) ∧
    pyFormat "Hello {name}" [("name", "Ann")] = some "Hello Ann" ∧
    pyFormat "Hello {name}" [] = none ∧
    fmt exGreeting "GREETING" (some "EN") none none none [("name", "Ann")] =
      .ok "Hello Ann" ∧
    fmt exGreeting "GREETING" (some "EN") none none none [] =
      .ok "Hello {name}" :=
  ⟨fun h => by simp [fmt, hres, h],
   fun s h => by simp [fmt, hres, h],
   by decide, by decide, by decide, by decide⟩

/-- Witness for C6 at the concrete greeting catalog and the empty map. -/
theorem fmt_lenient_witness :
    pyFormat "Hello {name}" [] = none ∧
    fmt exGreeting "GREETING" (some "EN") none none none [] =
      .ok "Hello {name}" :=
  ⟨(fmt_lenient exGreeting "GREETING" (some "EN") none none none []
      "Hello {name}" (by decide)).2.2.2.1,
   (fmt_lenient exGreeting "GREETING" (some "EN") none none none []
      "Hello {name}" (by decide)).1 (by decide)⟩

-- ============================== Claim C10 ===============================

/-- Claim C10: `init_language` is atomic with respect to failure — it
builds the replacement catalog off to the side and assigns the global
reference only after loading succeeds, so when the load raises, the
service state (and hence `get_language`) is unchanged. -/
theorem init_language_atomic (st : ServiceState) (j : Except PyErr Json)
    (dl : String) (al : Option (List String)) (ow : Bool)
    (ctx : Option String) (da : Bool) (e : PyErr)
    (hfail : (init_language st j dl al ow ctx da).2 = .error e) :
    (init_language st j dl al ow ctx da).1 = st ∧
    get_language (init_language st j dl al ow ctx da).1 = get_language st := by
  cases hload : (if da then load_domains_from_file (mkCatalog dl al) j ow
                 else load_from_file (mkCatalog dl al) j ow).2 with
  | error e2 =>
    constructor
    · simp [init_language, hload]
    · simp [init_language, hload]
  | ok n =>
    exfalso
    simp [init_language, hload] at hfail

/-- Witness for C10: a failed file read leaves a previously initialized
service untouched. -/
theorem init_language_atomic_witness :
    (init_language ⟨some exOne⟩
        (.error (.fileNotFound "File not found: messages.json")) "EN" none
        true none false).1 = ⟨some exOne⟩ ∧
    get_language (init_language ⟨some exOne⟩
        (.error (.fileNotFound "File not found: messages.json")) "EN" none
        true none false).1 = get_language ⟨some exOne⟩ :=
  init_language_atomic ⟨some exOne⟩
    (.error (.fileNotFound "File not found: messages.json")) "EN" none true
    none false (.fileNotFound "File not found: messages.json") (by decide)

-- ============================== Claim C7 ================================

/-- Claim C7: `list_labels` with a domain and `recursive=true` returns
exactly the labels stored directly under the normalized domain or under a
stored domain extending it past a `"."` boundary (so `GLOBALIZATION` is
not a descendant of `GLOBAL`); with `recursive=false` only the labels
stored directly under exactly that domain; every listing is
lexicographically sorted and duplicate-free; and concretely a label
stored under `GLOBAL.DATABASE.ORACLE` appears in the recursive listing of
`GLOBAL.DATABASE` but not in its direct listing, while a label stored
under `GLOBALIZATION` does not appear under `GLOBAL`. -/
theorem list_labels_spec :
    (∀ (c : Catalog) (d l : String),
      l ∈ list_labels c (some d) true ↔
        ((∃ labels, alFind c.data (_normalize_domain (some d)) = some labels ∧
            l ∈ labels.map Prod.fst) ∨
         (∃ d2 labels, (d2, labels) ∈ c.data ∧
            strStarts d2 (_normalize_domain (some d) ++ ".") = true ∧
            l ∈ labels.map Prod.fst))) ∧
    (∀ (c : Catalog) (d l : String),
      l ∈ list_labels c (some d) false ↔
        (∃ labels, alFind c.data (_normalize_domain (some d)) = some labels ∧
          l ∈ labels.map Prod.fst)) ∧
    (∀ (c : Catalog) (dom : Option String) (r : Bool),
      (list_labels c dom r).Sorted (· ≤ ·) ∧ (list_labels c dom r).Nodup) ∧
    ("C_ORA" ∈ list_labels exListing (some "GLOBAL.DATABASE") true ∧
     "C_ORA" ∉ list_labels exListing (some "GLOBAL.DATABASE") false ∧
     "ZED" ∉ list_labels exListing (some "GLOBAL") true) := by
  refine ⟨?_, ?_, ?_, by decide⟩
  · intro c d l
    simp only [list_labels, Bool.not_true, if_neg (by simp : ¬false = true)]
    rw [mem_pySortedSet, List.mem_append]
    apply or_congr
    · cases halif : alFind c.data (_normalize_domain (some d)) with
      | none => simp [halif]
      | some labels => simp [halif]
    · rw [List.mem_flatMap]
      constructor
      · rintro ⟨p, hpmem, hl⟩
        rw [List.mem_filter] at hpmem
        exact ⟨p.1, p.2, hpmem.1, hpmem.2, hl⟩
      · rintro ⟨d2, labels, hmem, hpfx, hl⟩
        exact ⟨(d2, labels), List.mem_filter.mpr ⟨hmem, hpfx⟩, hl⟩
  · intro c d l
    simp only [list_labels, Bool.not_false, if_true]
    rw [mem_pySortedSet]
    cases halif : alFind c.data (_normalize_domain (some d)) with
    | none => simp [halif]
    | some labels => simp [halif]
  · intro c dom r
    cases dom with
    | none =>
      exact ⟨pySortedSet_sorted _, pySortedSet_nodup _⟩
    | some d =>
      cases r with
      | true =>
        simp only [list_labels, Bool.not_true, if_neg (by simp : ¬false = true)]
        exact ⟨pySortedSet_sorted _, pySortedSet_nodup _⟩
      | false =>
        simp only [list_labels, Bool.not_false, if_true]
        exact ⟨pySortedSet_sorted _, pySortedSet_nodup _⟩

-- ======================= Store-invariant machinery ======================

/-- Membership after an association-list update. -/
theorem mem_alInsert {α : Type} {l : List (String × α)} {k : String} {v : α}
    {x : String × α} (h : x ∈ alInsert l k v) : x = (k, v) ∨ x ∈ l := by
  induction l with
  | nil =>
    unfold alInsert at h
    rcases List.mem_singleton.mp h with h
    exact Or.inl h
  | cons p rest ih =>
    unfold alInsert at h
    by_cases hk : p.1 = k
    · rw [if_pos hk] at h
      rcases List.mem_cons.mp h with h | h
      · exact Or.inl h
      · exact Or.inr (List.mem_cons_of_mem _ h)
    · rw [if_neg hk] at h
      rcases List.mem_cons.mp h with h | h
      · exact Or.inr (h ▸ List.mem_cons_self _ _)
      · rcases ih h with h | h
        · exact Or.inl h
        · exact Or.inr (List.mem_cons_of_mem _ h)

/-- Elementwise reading of the store invariant. -/
theorem storeInvB_iff {c : Catalog} : storeInvB c = true ↔
    ∀ dml ∈ c.data, _normalize_domain (some dml.1) = dml.1 ∧
      ∀ ll ∈ dml.2, ∀ lt ∈ ll.2, langOkB c lt.1 = true := by
  simp [storeInvB, List.all_eq_true, Bool.and_eq_true, decide_eq_true_eq]

/-- `langOkB` only reads the allow-list, which catalog-data updates keep. -/
theorem langOkB_data_update (c : Catalog) (X : Store) (l : String) :
    langOkB { c with data := X } l = langOkB c l := rfl

/-- A successfully normalized code is well-formed for the catalog. -/
theorem langOkB_of_normalize {c : Catalog} {lang code : String}
    (hn : _normalize_lang c lang = .ok code) : langOkB c code = true := by
  obtain ⟨hup, hal⟩ := normalize_lang_ok hn
  unfold langOkB
  rw [Bool.and_eq_true]
  refine ⟨by simp [hup], ?_⟩
  cases hc : c.allowed with
  | none => rfl
  | some al => simp [hal al hc]

/-- `set_text` preserves the store invariant. -/
theorem set_text_inv {c c2 : Catalog} {label lang : String} {t : Json}
    {ow : Bool} {dom : Option String}
    (hinv : storeInvB c = true)
    (h : set_text c label lang t ow dom = .ok c2) : storeInvB c2 = true := by
  unfold set_text at h
  by_cases hl : label = ""
  · rw [if_pos hl] at h; cases h
  · rw [if_neg hl] at h
    cases hn : _normalize_lang c lang with
    | error e => rw [hn] at h; cases h
    | ok code =>
      rw [hn] at h
      cases t with
      | num n => cases h
      | bool b => cases h
      | null => cases h
      | arr a => cases h
      | obj o => cases h
      | str s =>
        simp only at h
        by_cases hskip : (!ow && (alFind ((alFind ((alFind c.data
            (_normalize_domain (some (effDomainArg c dom)))).getD [])
            label).getD []) code).isSome) = true
        · rw [if_pos hskip] at h
          simp only [Except.ok.injEq] at h
          rw [← h]
          exact hinv
        · rw [if_neg hskip] at h
          simp only [Except.ok.injEq] at h
          subst h
          have hbl : ∀ ll ∈ (alFind c.data
              (_normalize_domain (some (effDomainArg c dom)))).getD [],
              ∀ lt ∈ ll.2, langOkB c lt.1 = true := by
            cases hf : alFind c.data
                (_normalize_domain (some (effDomainArg c dom))) with
            | none => intro ll hll; simp at hll
            | some bl =>
              intro ll hll
              simp only [Option.getD_some] at hll
              exact (storeInvB_iff.mp hinv _ (alFind_some_mem hf)).2 ll hll
          have hbg : ∀ lt ∈ (alFind ((alFind c.data
              (_normalize_domain (some (effDomainArg c dom)))).getD [])
              label).getD [], langOkB c lt.1 = true := by
            cases hf2 : alFind ((alFind c.data
                (_normalize_domain (some (effDomainArg c dom)))).getD [])
                label with
            | none => intro lt hlt; simp at hlt
            | some bl2 =>
              intro lt hlt
              simp only [Option.getD_some] at hlt
              exact hbl _ (alFind_some_mem hf2) lt hlt
          rw [storeInvB_iff]
          intro dml hdml
          simp only [langOkB_data_update]
          rcases mem_alInsert hdml with heq | hmem
          · subst heq
            refine ⟨normalize_domain_idem (some (effDomainArg c dom)), ?_⟩
            intro ll hll
            rcases mem_alInsert hll with heq2 | hmem2
            · subst heq2
              intro lt hlt
              rcases mem_alInsert hlt with heq3 | hmem3
              · subst heq3
                exact langOkB_of_normalize hn
              · exact hbg lt hmem3
            · exact hbl ll hmem2
          · exact storeInvB_iff.mp hinv dml hmem

/-- The legacy object loader's inner loop preserves the invariant, also on
the partial state left by a failure. -/
theorem loadLangPairs_inv (label : String) (ow : Bool) :
    ∀ (entries : List (String × Json)) (c : Catalog) (count : Nat),
      storeInvB c = true →
      storeInvB (loadLangPairs c label ow count entries).1 = true := by
  intro entries
  induction entries with
  | nil => intro c count hinv; exact hinv
  | cons p rest ih =>
    intro c count hinv
    obtain ⟨lang, text⟩ := p
    unfold loadLangPairs
    cases hset : set_text c label lang text ow (some ROOT_DOMAIN) with
    | error e => exact hinv
    | ok c2 => exact ih c2 (count + 1) (set_text_inv hinv hset)

/-- The legacy object loader preserves the invariant. -/
theorem loadFlatObj_inv (ow : Bool) :
    ∀ (entries : List (String × Json)) (c : Catalog) (count : Nat),
      storeInvB c = true →
      storeInvB (loadFlatObj c ow count entries).1 = true := by
  intro entries
  induction entries with
  | nil => intro c count hinv; exact hinv
  | cons p rest ih =>
    intro c count hinv
    obtain ⟨label, mapping⟩ := p
    unfold loadFlatObj
    split
    next langMap =>
      split
      next c2 count2 heq =>
        have hc2 : storeInvB c2 = true := by
          have := loadLangPairs_inv label ow langMap c count hinv
          rw [heq] at this
          exact this
        exact ih c2 count2 hc2
      next c2 e heq =>
        have := loadLangPairs_inv label ow langMap c count hinv
        rw [heq] at this
        exact this
    next => exact hinv

/-- The legacy list loader preserves the invariant. -/
theorem loadFlatList_inv (ow : Bool) :
    ∀ (records : List Json) (c : Catalog) (count : Nat),
      storeInvB c = true →
      storeInvB (loadFlatList c ow count records).1 = true := by
  intro records
  induction records with
  | nil => intro c count hinv; exact hinv
  | cons rec rest ih =>
    intro c count hinv
    unfold loadFlatList
    split
    · split
      · split
        · exact hinv
        next c2 heq => exact ih c2 _ (set_text_inv hinv heq)
      · exact hinv
    · exact hinv

/-- The domain-aware loader's innermost loop preserves the invariant. -/
theorem loadDomLangs_inv (dom_norm label : String) (ow : Bool) :
    ∀ (langs : List (String × Json)) (c : Catalog) (count : Nat),
      storeInvB c = true →
      storeInvB (loadDomLangs c dom_norm label ow count langs).1 = true := by
  intro langs
  induction langs with
  | nil => intro c count hinv; exact hinv
  | cons p rest ih =>
    intro c count hinv
    obtain ⟨lang, text⟩ := p
    unfold loadDomLangs
    split
    · split
      · exact hinv
      next c2 heq => exact ih c2 _ (set_text_inv hinv heq)
    · exact hinv

/-- The domain-aware loader's label loop preserves the invariant. -/
theorem loadDomLabels_inv (dom_norm : String) (ow : Bool) :
    ∀ (labelList : List (String × Json)) (c : Catalog) (count : Nat),
      storeInvB c = true →
      storeInvB (loadDomLabels c dom_norm ow count labelList).1 = true := by
  intro labelList
  induction labelList with
  | nil => intro c count hinv; exact hinv
  | cons p rest ih =>
    intro c count hinv
    obtain ⟨label, lang_map⟩ := p
    unfold loadDomLabels
    split
    next langs =>
      split
      next c2 count2 heq =>
        have hc2 : storeInvB c2 = true := by
          have := loadDomLangs_inv dom_norm label ow langs c count hinv
          rw [heq] at this
          exact this
        exact ih c2 count2 hc2
      next c2 e heq =>
        have := loadDomLangs_inv dom_norm label ow langs c count hinv
        rw [heq] at this
        exact this
    next => exact hinv

/-- The domain-aware loader's domain loop preserves the invariant. -/
theorem loadDomList_inv (ow : Bool) :
    ∀ (doms : List (String × Json)) (c : Catalog) (count : Nat),
      storeInvB c = true →
      storeInvB (loadDomList c ow count doms).1 = true := by
  intro doms
  induction doms with
  | nil => intro c count hinv; exact hinv
  | cons p rest ih =>
    intro c count hinv
    obtain ⟨dom, labels⟩ := p
    unfold loadDomList
    split
    next labelList =>
      split
      next c2 count2 heq =>
        have hc2 : storeInvB c2 = true := by
          have := loadDomLabels_inv (_normalize_domain (some dom)) ow
            labelList c count hinv
          rw [heq] at this
          exact this
        exact ih c2 count2 hc2
      next c2 e heq =>
        have := loadDomLabels_inv (_normalize_domain (some dom)) ow
          labelList c count hinv
        rw [heq] at this
        exact this
    next => exact hinv

/-- The single-language loader's object loop preserves the invariant. -/
theorem loadSingleObj_inv (code tgt : String) (ow : Bool) :
    ∀ (entries : List (String × Json)) (c : Catalog) (count : Nat),
      storeInvB c = true →
      storeInvB (loadSingleObj c code tgt ow count entries).1 = true := by
  intro entries
  induction entries with
  | nil => intro c count hinv; exact hinv
  | cons p rest ih =>
    intro c count hinv
    obtain ⟨label, text⟩ := p
    unfold loadSingleObj
    split
    · split
      · exact hinv
      next c2 heq => exact ih c2 _ (set_text_inv hinv heq)
    · exact hinv

/-- The single-language loader's list loop preserves the invariant. -/
theorem loadSingleList_inv (code tgt : String) (ow : Bool) :
    ∀ (records : List Json) (c : Catalog) (count : Nat),
      storeInvB c = true →
      storeInvB (loadSingleList c code tgt ow count records).1 = true := by
  intro records
  induction records with
  | nil => intro c count hinv; exact hinv
  | cons rec rest ih =>
    intro c count hinv
    unfold loadSingleList
    split
    · split
      · split
        · exact hinv
        next c2 heq => exact ih c2 _ (set_text_inv hinv heq)
      · exact hinv
    · exact hinv

-- ============================== Claim C8 ================================

/-- Claim C8: every mutating operation — `set_text` and all three loaders,
also on the partial state a mid-load failure leaves behind — preserves
the store invariant: every stored domain key is normalized (trimmed,
never empty, a fixpoint of `_normalize_domain`) and every language key is
uppercase and, when an allow-list was configured, a member of it. -/
theorem store_invariant_preserved :
    (∀ (c : Catalog) (label lang : String) (t : Json) (ow : Bool)
        (dom : Option String) (c2 : Catalog),
      storeInvB c = true → set_text c label lang t ow dom = .ok c2 →
      storeInvB c2 = true) ∧
    (∀ (c : Catalog) (j : Except PyErr Json) (ow : Bool),
      storeInvB c = true → storeInvB (load_from_file c j ow).1 = true) ∧
    (∀ (c : Catalog) (j : Except PyErr Json) (ow : Bool),
      storeInvB c = true →
      storeInvB (load_domains_from_file c j ow).1 = true) ∧
    (∀ (c : Catalog) (lang : String) (j : Except PyErr Json) (ow : Bool)
        (dom : Option String),
      storeInvB c = true →
      storeInvB (load_language_only_from_file c lang j ow dom).1 = true) := by
  refine ⟨?_, ?_, ?_, ?_⟩
  · intro c label lang t ow dom c2 hinv h
    exact set_text_inv hinv h
  · intro c j ow hinv
    unfold load_from_file
    split
    · exact hinv
    · split
      next entries => exact loadFlatObj_inv ow entries c 0 hinv
      next records => exact loadFlatList_inv ow records c 0 hinv
      next => exact hinv
  · intro c j ow hinv
    unfold load_domains_from_file
    split
    · exact hinv
    · split
      next doms => exact loadDomList_inv ow doms c 0 hinv
      next => exact hinv
  · intro c lang j ow dom hinv
    unfold load_language_only_from_file
    split
    · exact hinv
    next code heq =>
      split
      · exact hinv
      · split
        next entries =>
          exact loadSingleObj_inv code (_normalize_domain dom) ow entries c 0
            hinv
        next records =>
          exact loadSingleList_inv code (_normalize_domain dom) ow records c 0
            hinv
        next => exact hinv

/-- Witness for C8 on the concrete one-entry catalog: the invariant holds
and survives a `set_text` and each loader. -/
theorem store_invariant_preserved_witness :
    storeInvB exOne = true ∧
    storeInvB ⟨[("GLOBAL", [("L", [("EN", "old")]), ("X", [("DE", "t")])])],
      "EN", none, "GLOBAL"⟩ = true ∧
    storeInvB (load_from_file exOne
      (.ok (.obj [("L2", .obj [("de", .str "u")])])) true).1 = true ∧
    storeInvB (load_domains_from_file exOne
      (.ok (.obj [(" GLOBAL.DATABASE ", .obj [("L3", .obj [("fr",
        .str "v")])])])) true).1 = true ∧
    storeInvB (load_language_only_from_file exOne "it"
      (.ok (.obj [("L4", .str "w")])) false (some "GLOBAL.CSV")).1 = true :=
  ⟨by decide,
   store_invariant_preserved.1 exOne "X" "de" (.str "t") true none
     ⟨[("GLOBAL", [("L", [("EN", "old")]), ("X", [("DE", "t")])])],
      "EN", none, "GLOBAL"⟩ (by decide) (by decide),
   store_invariant_preserved.2.1 exOne
     (.ok (.obj [("L2", .obj [("de", .str "u")])])) true (by decide),
   store_invariant_preserved.2.2.1 exOne
     (.ok (.obj [(" GLOBAL.DATABASE ", .obj [("L3", .obj [("fr",
       .str "v")])])])) true (by decide),
   store_invariant_preserved.2.2.2 exOne "it"
     (.ok (.obj [("L4", .str "w")])) false (some "GLOBAL.CSV") (by decide)⟩
